import Mathlib

/-!
# Verification of the poltergeist secret-scanner core

Shallow embedding of the pattern-matching pipeline of the poltergeist
repository (package `poltergeist`): the extended-regex normalizer, the
redaction logic, the two pattern engines (`GoRegexEngine` and
`HyperscanEngine`), the capture-group span refinement
(`quickMatchWithRegex`), the binary-file heuristic (`isBinaryFile`) and
the generic-rule overlap filter.

Modelling conventions:
* a Go string or byte slice is a `List Char` (the scanned inputs are
  byte-oriented; one `Char` stands for one byte, and the concrete inputs
  used below are ASCII so byte and rune positions coincide);
* the Go regexp engine and the Hyperscan library are external
  collaborators: a compiled regex is a record of oracle functions
  (`GoRegex`), and a Hyperscan scan is an oracle list of callback events;
* Go `float64` entropy values are modelled as `ℚ`; the Shannon-entropy
  computation itself is irrelevant to the claims below and is passed in
  as an oracle `H`.
-/

namespace Poltergeist

/-- Go slice expression `l[a:b]` (defined when `a ≤ b ≤ l.length`,
which every use below guarantees; out of range the Go code would panic,
here the result is clamped). -/
def extract (l : List Char) (a b : Nat) : List Char :=
  (l.drop a).take (b - a)

/-- There is an occurrence of `sub` in `l` starting at byte offset `i`. -/
def occursAtB (l sub : List Char) (i : Nat) : Bool :=
  (l.drop i).take sub.length == sub

/-- Go `strings.LastIndex(l, sub)`: the index of the last occurrence of
`sub` in `l`, or `-1` if `sub` is not present.  `strings.LastIndex(l, "")`
is `len(l)`. -/
def strLastIndex (l sub : List Char) : Int :=
  match ((List.range (l.length + 1)).filter (occursAtB l sub)).getLast? with
  | some i => (i : Int)
  | none => -1

/-- Go `unicode.IsSpace` restricted to the scalar values it accepts:
ASCII space characters plus the Unicode White_Space code points. -/
def isGoSpace (r : Char) : Bool :=
  r == ' ' || r == '\t' || r == '\n' || (r == Char.ofNat 11) ||
  (r == Char.ofNat 12) || r == '\r' || (r == Char.ofNat 0x85) ||
  (r == Char.ofNat 0xA0) || (r == Char.ofNat 0x1680) ||
  (Char.ofNat 0x2000 ≤ r && r ≤ Char.ofNat 0x200A) ||
  (r == Char.ofNat 0x2028) || (r == Char.ofNat 0x2029) ||
  (r == Char.ofNat 0x202F) || (r == Char.ofNat 0x205F) ||
  (r == Char.ofNat 0x3000)

/-- Go `strings.Contains(pattern, "(?x)")`. -/
def containsXFlag : List Char → Bool
  | '(' :: '?' :: 'x' :: ')' :: _ => true
  | _ :: rest => containsXFlag rest
  | [] => false

/-- Go `strings.ReplaceAll(pattern, "(?x)", "")`: delete every
(leftmost, non-overlapping) occurrence of `(?x)`. -/
def stripXFlag : List Char → List Char
  | '(' :: '?' :: 'x' :: ')' :: rest => stripXFlag rest
  | c :: rest => c :: stripXFlag rest
  | [] => []

/-- Walker state of `NormalizeExtendedRegex` (rule.go): the two state
booleans and the accumulated output of the `strings.Builder`. -/
structure NormSt where
  inCharClass : Bool
  inEscape : Bool
  acc : List Char
  deriving Repr, DecidableEq

/-- One iteration of the `for i, r := range pattern` loop of
`NormalizeExtendedRegex` (rule.go lines 149-191).  The `#` comment case
of the source runs an inner loop over `j` that has no effect (it never
writes and never advances the outer index), so that case drops exactly
the `#` character itself. -/
def normStep (st : NormSt) (r : Char) : NormSt :=
  if st.inEscape then { st with acc := st.acc ++ [r], inEscape := false }
  else if r == '\\' then { st with acc := st.acc ++ [r], inEscape := true }
  else if r == '[' && !st.inCharClass then
    { st with acc := st.acc ++ [r], inCharClass := true }
  else if r == ']' && st.inCharClass then
    { st with acc := st.acc ++ [r], inCharClass := false }
  else if st.inCharClass then { st with acc := st.acc ++ [r] }
  else if r == '#' then st
  else if isGoSpace r then st
  else { st with acc := st.acc ++ [r] }

/-- Source `NormalizeExtendedRegex` (rule.go): if the pattern does not contain
the literal `(?x)` it is returned unchanged; otherwise every `(?x)` is
removed and the remainder is walked by `normStep`. -/
def NormalizeExtendedRegex (pattern : List Char) : List Char :=
  if containsXFlag pattern then
    ((stripXFlag pattern).foldl normStep ⟨false, false, []⟩).acc
  else pattern

/-- The redaction block shared by all four `FindAll*` methods of the
current engine (engine.go): guarded rule-specific redaction, an
`L > 8` fallback, and full masking. `redact` is the rule's `Redact`
list of Go ints. -/
def redactMatch (redact : List Int) (m : List Char) : List Char :=
  if redact.length > 0 ∧ redact.getD 0 0 > 0 ∧ redact.getD 1 0 > 0 ∧
      (m.length : Int) > redact.getD 0 0 + redact.getD 1 0 then
    m.take (redact.getD 0 0).toNat ++ List.replicate (min 5 m.length) '*' ++
      m.drop (m.length - (redact.getD 1 0).toNat)
  else if m.length > 8 then
    m.take 4 ++ List.replicate (min 5 (m.length - 8)) '*' ++ m.drop (m.length - 4)
  else
    List.replicate m.length '*'

/-- The three-case redaction formula exactly as the specification words
it, for a redaction pair `(p, s)`.  Used to compare the source's
`redactMatch` against the spec. -/
def redactSpec (p s : Int) (m : List Char) : List Char :=
  if p > 0 ∧ s > 0 ∧ (m.length : Int) > p + s then
    m.take p.toNat ++ List.replicate (min 5 m.length) '*' ++
      m.drop (m.length - s.toNat)
  else if m.length > 8 then
    m.take 4 ++ List.replicate (min 5 (m.length - 8)) '*' ++ m.drop (m.length - 4)
  else
    List.replicate m.length '*'

/-- Source `RuntimeRule` (rule.go): the projection of a `Rule` kept at match
time. -/
structure RuntimeRule where
  Name : String
  ID : String
  Pattern : List Char
  Redact : List Int
  Entropy : ℚ
  deriving Repr, DecidableEq, Inhabited

/-- Source `MatchResult` (scanner.go / engine.go, current version): one match
within a line or buffer. -/
structure MatchResult where
  Start : Nat
  End : Nat
  Match : List Char
  Redacted : List Char
  RuleName : String
  RuleID : String
  Entropy : ℚ
  RuleEntropyThreshold : ℚ
  RuleEntropyThresholdMet : Bool
  deriving Repr, DecidableEq, Inhabited

/-- A compiled Go regexp, as an external oracle: the three query methods
the scanner uses.  `findAllStr` is `FindAllString(line, -1)`,
`findAllIdx` is `FindAllIndex(content, -1)`, `findSubmatch` is
`FindStringSubmatch(line)` (empty list when there is no match, otherwise
the full match followed by the capture-group texts). -/
structure GoRegex where
  findAllStr : List Char → List (List Char)
  findAllIdx : List Char → List (Nat × Nat)
  findSubmatch : List Char → List (List Char)

/-- Source `GoRegexEngine` (engine.go) after `CompileRules`: parallel arrays of
runtime rules and compiled patterns. -/
structure GoRegexEngine where
  rules : List RuntimeRule
  patterns : List GoRegex

/-- Source `HyperscanEngine` (engine.go) after `CompileRules`: `database` is
whether the `e.database != nil` pointer test passes (the wrapper never
resets the field), `goRegexPatterns` holds the per-rule pre-compiled Go
regexes used for refinement, `none` where compilation failed. -/
structure HyperscanEngine where
  database : Bool
  rules : List RuntimeRule
  goRegexPatterns : List (Option GoRegex)

/-- Result record built by `GoRegexEngine.FindAllInLine` for one match
string `m`: note the hard-coded `Start: 0, End: 0` of the source. -/
def goLineResult (H : List Char → ℚ) (rule : RuntimeRule) (m : List Char) :
    MatchResult :=
  { Start := 0, End := 0, Match := m, Redacted := redactMatch rule.Redact m,
    RuleName := rule.Name, RuleID := rule.ID, Entropy := H m,
    RuleEntropyThreshold := rule.Entropy,
    RuleEntropyThresholdMet := decide (rule.Entropy ≤ H m) }

/-- Source `GoRegexEngine.FindAllInLine` (engine.go): for each pattern, every
match string returned by `FindAllString`, in engine order. -/
def goFindAllInLine (H : List Char → ℚ) (e : GoRegexEngine)
    (line : List Char) : List MatchResult :=
  (e.rules.zip e.patterns).flatMap fun rp =>
    (rp.2.findAllStr line).map (goLineResult H rp.1)

/-- Source `GoRegexEngine.FindAllInContent` (engine.go): for each pattern, every
index pair returned by `FindAllIndex`, with the match text sliced out of
the content. -/
def goFindAllInContent (H : List Char → ℚ) (e : GoRegexEngine)
    (content : List Char) : List MatchResult :=
  (e.rules.zip e.patterns).flatMap fun rp =>
    (rp.2.findAllIdx content).map fun q =>
      let matchText := extract content q.1 q.2
      { Start := q.1, End := q.2, Match := matchText,
        Redacted := redactMatch rp.1.Redact matchText,
        RuleName := rp.1.Name, RuleID := rp.1.ID, Entropy := H matchText,
        RuleEntropyThreshold := rp.1.Entropy,
        RuleEntropyThresholdMet := decide (rp.1.Entropy ≤ H matchText) }

/-- Source `GoRegexEngine.Close` (engine.go): `return nil` — no state change,
no error. -/
def goClose (e : GoRegexEngine) : GoRegexEngine × Option String :=
  (e, none)

/-- Source `quickMatchWithRegex` (engine.go): refine a Hyperscan match using the
pre-compiled Go regex.  `none` models the Go `nil` return (compilation
failed or no match); otherwise the span of the last occurrence of the
last element of the submatch slice. -/
def quickMatchWithRegex (line : List Char) (re : Option GoRegex) :
    Option (Int × Int) :=
  match re with
  | none => none
  | some r =>
    if (r.findSubmatch line).isEmpty then none
    else
      some (strLastIndex line ((r.findSubmatch line).getLastD []),
        strLastIndex line ((r.findSubmatch line).getLastD []) +
          ((r.findSubmatch line).getLastD []).length)

/-- The span substitution step of the callback of
`HyperscanEngine.FindAllInLine`: when `quickMatchWithRegex` yields a
span it replaces the automaton bounds `(fr0, to0)`, otherwise they are
kept. -/
def hsRefineSpan (line : List Char) (re : Option GoRegex) (fr0 to0 : Nat) :
    Nat × Nat :=
  match quickMatchWithRegex line re with
  | some (a, b) => (a.toNat, b.toNat)
  | none => (fr0, to0)

/-- The body of the `Scan` callback of `HyperscanEngine.FindAllInLine`
(engine.go) for one event `(id, from, to)`: refinement through
`quickMatchWithRegex`, then redaction and entropy qualification. -/
def hsLineResult (H : List Char → ℚ) (rules : List RuntimeRule)
    (pats : List (Option GoRegex)) (line : List Char)
    (ev : Nat × Nat × Nat) : MatchResult :=
  { Start := (hsRefineSpan line (pats.getD ev.1 none) ev.2.1 ev.2.2).1,
    End := (hsRefineSpan line (pats.getD ev.1 none) ev.2.1 ev.2.2).2,
    Match := extract line (hsRefineSpan line (pats.getD ev.1 none) ev.2.1 ev.2.2).1
      (hsRefineSpan line (pats.getD ev.1 none) ev.2.1 ev.2.2).2,
    Redacted := redactMatch (rules.getD ev.1 default).Redact
      (extract line (hsRefineSpan line (pats.getD ev.1 none) ev.2.1 ev.2.2).1
        (hsRefineSpan line (pats.getD ev.1 none) ev.2.1 ev.2.2).2),
    RuleName := (rules.getD ev.1 default).Name,
    RuleID := (rules.getD ev.1 default).ID,
    Entropy := H (extract line (hsRefineSpan line (pats.getD ev.1 none) ev.2.1 ev.2.2).1
      (hsRefineSpan line (pats.getD ev.1 none) ev.2.1 ev.2.2).2),
    RuleEntropyThreshold := (rules.getD ev.1 default).Entropy,
    RuleEntropyThresholdMet := decide ((rules.getD ev.1 default).Entropy ≤
      H (extract line (hsRefineSpan line (pats.getD ev.1 none) ev.2.1 ev.2.2).1
        (hsRefineSpan line (pats.getD ev.1 none) ev.2.1 ev.2.2).2)) }

/-- Source `HyperscanEngine.FindAllInLine` (engine.go).  Here `scanOutcome` is the
library scan oracle: `none` when `database.Scan` reports an error (the
method then discards everything and returns `nil`), otherwise the list
of callback events `(id, from, to)`. -/
def hsFindAllInLine (H : List Char → ℚ) (e : HyperscanEngine)
    (line : List Char) (scanOutcome : Option (List (Nat × Nat × Nat))) :
    List MatchResult :=
  if e.database then
    match scanOutcome with
    | none => []
    | some evs => evs.map (hsLineResult H e.rules e.goRegexPatterns line)
  else []

/-- The callback body of `HyperscanEngine.FindAllInContent` (engine.go)
for one event: no span refinement. -/
def hsContentResult (H : List Char → ℚ) (rules : List RuntimeRule)
    (content : List Char) (ev : Nat × Nat × Nat) : MatchResult :=
  { Start := ev.2.1, End := ev.2.2,
    Match := extract content ev.2.1 ev.2.2,
    Redacted := redactMatch (rules.getD ev.1 default).Redact
      (extract content ev.2.1 ev.2.2),
    RuleName := (rules.getD ev.1 default).Name,
    RuleID := (rules.getD ev.1 default).ID,
    Entropy := H (extract content ev.2.1 ev.2.2),
    RuleEntropyThreshold := (rules.getD ev.1 default).Entropy,
    RuleEntropyThresholdMet := decide ((rules.getD ev.1 default).Entropy ≤
      H (extract content ev.2.1 ev.2.2)) }

/-- Source `HyperscanEngine.FindAllInContent` (engine.go): as the line variant
but without span refinement. -/
def hsFindAllInContent (H : List Char → ℚ) (e : HyperscanEngine)
    (content : List Char) (scanOutcome : Option (List (Nat × Nat × Nat))) :
    List MatchResult :=
  if e.database then
    match scanOutcome with
    | none => []
    | some evs => evs.map (hsContentResult H e.rules content)
  else []

/-- Source `HyperscanEngine.Close` (engine.go): calls the library release when
the database pointer is set (its outcome `dbCloseResult` is the
library's), returns `nil` otherwise; the wrapper state is unchanged in
both cases. -/
def hsClose (e : HyperscanEngine) (dbCloseResult : Option String) :
    HyperscanEngine × Option String :=
  if e.database then (e, dbCloseResult) else (e, none)

/-- ASCII case of Go `strings.ToLower` (every extension in the deny-list
below is pure ASCII, so this is the only case `isBinaryFile`
exercises). -/
def asciiLower (l : List Char) : List Char :=
  l.map fun c => if 'A' ≤ c ∧ c ≤ 'Z' then Char.ofNat (c.toNat + 32) else c

/-- Go `filepath.Ext(path)` with `/` as the path separator: the suffix
of `path` from its final dot, empty when the final path element has no
dot. -/
def goFileExt (path : List Char) : List Char :=
  let i := strLastIndex path ['.']
  let j := strLastIndex path ['/']
  if i > j then path.drop i.toNat else []

/-- The fixed extension deny-list of `isBinaryFile` (scanner.go). -/
def binaryExts : List (List Char) :=
  [".a".toList, ".avi".toList, ".bin".toList, ".bmp".toList,
   ".class".toList, ".dll".toList, ".doc".toList, ".docx".toList,
   ".dylib".toList, ".exe".toList, ".gif".toList, ".gz".toList,
   ".img".toList, ".iso".toList, ".jar".toList, ".jpg".toList,
   ".jpeg".toList, ".lib".toList, ".mov".toList, ".mp3".toList,
   ".mp4".toList, ".o".toList, ".obj".toList, ".pdf".toList,
   ".png".toList, ".rar".toList, ".so".toList, ".tar".toList,
   ".war".toList, ".xls".toList, ".xlsx".toList, ".zip".toList]

/-- The non-printable-byte test of `isBinaryFile` (scanner.go line 1084):
`b < 32 && b != 9 && b != 10 && b != 13`.  Bytes at or above `0x7F`
do NOT count as non-printable in the source. -/
def goNonPrintable (b : Nat) : Bool :=
  b < 32 && b != 9 && b != 10 && b != 13

/-- Source `isBinaryFile` (scanner.go).  The file system is abstracted:
`content` is `none` when the open or the read fails, otherwise the
file's bytes (of which the Go code reads at most the first 512).
The Go ratio test `float64(np)/float64(n) > 0.30` is exact integer
arithmetic here: for `0 ≤ np ≤ n ≤ 512` the float comparison agrees
with `10*np > 3*n` (both sides are exactly representable and no
quotient with these denominators rounds across `0.3`), and for `n = 0`
Go compares `NaN > 0.30`, which is false. -/
def isBinaryFile (path : List Char) (content : Option (List Nat)) : Bool :=
  if binaryExts.contains (asciiLower (goFileExt path)) then true
  else
    match content with
    | none => true
    | some bytes =>
      if (bytes.take 512).any (fun b => b == 0) then true
      else if (bytes.take 512).length == 0 then false
      else decide (10 * ((bytes.take 512).filter goNonPrintable).length >
        3 * (bytes.take 512).length)

/-- The non-printable-byte test as the claim words it: outside
`[0x20, 0x7E]` and not tab, LF, or CR. -/
def claimNonPrintable (b : Nat) : Bool :=
  !(0x20 ≤ b && b ≤ 0x7E) && b != 9 && b != 10 && b != 13

/-- The binary-file heuristic as the claim words it, with
`claimNonPrintable` as the non-printable test. -/
def isBinaryClaim (path : List Char) (content : Option (List Nat)) : Bool :=
  binaryExts.contains (asciiLower (goFileExt path)) ||
  match content with
  | none => true
  | some bytes =>
    (bytes.take 512).any (fun b => b == 0) ||
    ((bytes.take 512).length != 0 &&
      decide (10 * ((bytes.take 512).filter claimNonPrintable).length >
        3 * (bytes.take 512).length))

/-- The binary-file heuristic as amended: identical to the claim except
that non-printable means the source's `goNonPrintable` test. -/
def isBinaryAmended (path : List Char) (content : Option (List Nat)) : Bool :=
  binaryExts.contains (asciiLower (goFileExt path)) ||
  match content with
  | none => true
  | some bytes =>
    (bytes.take 512).any (fun b => b == 0) ||
    ((bytes.take 512).length != 0 &&
      decide (10 * ((bytes.take 512).filter goNonPrintable).length >
        3 * (bytes.take 512).length))

/-- Modelled from the spec: a rule is generic iff its id begins with the
reserved id namespace `generic.`.  The overlap filter itself is absent
from the source tree (the README lists it as an unimplemented TODO), so
this component is modelled from the spec's words (§4.6). -/
def isGenericRule (id : String) : Bool :=
  id.toList.take 8 == "generic.".toList

/-- Modelled from the spec: two matches overlap iff
`a.start < b.end ∧ b.start < a.end`. -/
def overlapsB (a b : MatchResult) : Bool :=
  decide (a.Start < b.End) && decide (b.Start < a.End)

/-- Modelled from the spec: drop any generic match that overlaps any
non-generic match; non-generic matches are never filtered. -/
def filterGenericOverlaps (rs : List MatchResult) : List MatchResult :=
  rs.filter fun a =>
    !(isGenericRule a.RuleID &&
      rs.any fun b => !isGenericRule b.RuleID && overlapsB a b)

/-! ## Helper lemmas -/

theorem redactMatch_star_mem (rl : List Int) (m : List Char) (hm : m ≠ []) :
    '*' ∈ redactMatch rl m := by
  have hL : 0 < m.length := List.length_pos.mpr hm
  unfold redactMatch
  split_ifs with h1 h2
  · exact List.mem_append.mpr (Or.inl (List.mem_append.mpr (Or.inr
      (List.mem_replicate.mpr ⟨by omega, rfl⟩))))
  · exact List.mem_append.mpr (Or.inl (List.mem_append.mpr (Or.inr
      (List.mem_replicate.mpr ⟨by omega, rfl⟩))))
  · exact List.mem_replicate.mpr ⟨by omega, rfl⟩

theorem redactMatch_ne (rl : List Int) (m : List Char) (hm : m ≠ [])
    (hs : '*' ∉ m) : redactMatch rl m ≠ m :=
  fun h => hs (h ▸ redactMatch_star_mem rl m hm)

theorem redactMatch_nil (rl : List Int) : redactMatch rl [] = [] := by
  unfold redactMatch
  split_ifs with h1 h2
  · exfalso
    obtain ⟨-, ha, hb, hc⟩ := h1
    simp only [List.length_nil, Nat.cast_zero] at hc
    omega
  · simp at h2
  · simp

theorem getLastD_mem_cons {α} (c : α) (cs : List α) (d : α) :
    (c :: cs).getLastD d ∈ c :: cs := by
  induction cs generalizing c d with
  | nil => simp [List.getLastD]
  | cons b bs ih =>
    exact List.mem_cons_of_mem c (ih b c)

theorem le_getLast_of_pairwise {L : List Nat} (hp : L.Pairwise (· < ·))
    {j : Nat} (hj : L.getLast? = some j) : ∀ k ∈ L, k ≤ j := by
  induction L with
  | nil => simp at hj
  | cons a L ih =>
    cases L with
    | nil =>
      simp only [List.getLast?_singleton, Option.some.injEq] at hj
      intro k hk
      simp only [List.mem_singleton] at hk
      omega
    | cons b L' =>
      rw [List.getLast?_cons_cons] at hj
      have htail := ih (List.Pairwise.sublist (List.sublist_cons_self a (b :: L')) hp) hj
      intro k hk
      rcases List.mem_cons.mp hk with rfl | hk'
      · have hab : k < b := (List.pairwise_cons.mp hp).1 b (List.mem_cons_self b L')
        have hbj : b ≤ j := htail b (List.mem_cons_self b L')
        omega
      · exact htail k hk'

theorem occursAtB_extract (l sub : List Char) (i : Nat)
    (h : occursAtB l sub i = true) : (l.drop i).take sub.length = sub := by
  simpa [occursAtB] using h

theorem occursAtB_add_le (l sub : List Char) (i : Nat)
    (h : occursAtB l sub i = true) (hi : i ≤ l.length) :
    i + sub.length ≤ l.length := by
  have hlen := congrArg List.length (occursAtB_extract l sub i h)
  simp only [List.length_take, List.length_drop] at hlen
  omega

/-- Function `strLastIndex` finds the last occurrence of any infix: the returned
index is a valid occurrence and no later valid position is an
occurrence. -/
theorem strLastIndex_spec (l sub : List Char) (h : List.IsInfix sub l) :
    ∃ j : Nat, strLastIndex l sub = (j : Int) ∧ occursAtB l sub j = true ∧
      j ≤ l.length ∧
      ∀ k, k ≤ l.length → occursAtB l sub k = true → k ≤ j := by
  obtain ⟨s, t, hst⟩ := h
  have hdrop : l.drop s.length = sub ++ t := by
    rw [← hst, List.append_assoc, List.drop_left]
  have hocc : occursAtB l sub s.length = true := by
    simp [occursAtB, hdrop, List.take_left]
  have hslen : s.length ≤ l.length := by
    rw [← hst]; simp only [List.length_append]; omega
  have hmem : s.length ∈
      (List.range (l.length + 1)).filter (occursAtB l sub) :=
    List.mem_filter.mpr ⟨List.mem_range.mpr (by omega), hocc⟩
  have hpw : ((List.range (l.length + 1)).filter (occursAtB l sub)).Pairwise (· < ·) :=
    List.Pairwise.filter _ (List.pairwise_lt_range _)
  cases hgl : ((List.range (l.length + 1)).filter (occursAtB l sub)).getLast? with
  | none =>
    rw [List.getLast?_eq_none_iff] at hgl
    exact absurd (hgl ▸ hmem) (List.not_mem_nil _)
  | some j =>
    have hjmem := List.mem_of_mem_getLast? hgl
    have hjp := List.mem_filter.mp hjmem
    refine ⟨j, ?_, hjp.2, Nat.lt_succ_iff.mp (List.mem_range.mp hjp.1), ?_⟩
    · unfold strLastIndex
      rw [hgl]
    · intro k hk hkocc
      exact le_getLast_of_pairwise hpw hgl k
        (List.mem_filter.mpr ⟨List.mem_range.mpr (by omega), hkocc⟩)

theorem strLastIndex_nil (l : List Char) :
    strLastIndex l [] = (l.length : Int) := by
  unfold strLastIndex
  have h1 : (List.range (l.length + 1)).filter (occursAtB l []) =
      List.range (l.length + 1) := by
    apply List.filter_eq_self.mpr
    intro a _
    simp [occursAtB]
  rw [h1, List.range_succ, List.getLast?_concat]

/-! ## Claim C3 -/

/-- Claim C3: for every match of length `L` under a rule with redaction
pair `(p, s)`, the redacted rendering is computed by exactly the three
cases of the specification — the source's `redactMatch` applied to the
pair `[p, s]` agrees with the spec's `redactSpec` on every match. -/
theorem claim_C3_redaction_three_cases (p s : Int) (m : List Char) :
    redactMatch [p, s] m = redactSpec p s m := by
  unfold redactMatch redactSpec
  simp only [List.getD_cons_zero, List.getD_cons_succ, List.length_cons,
    List.length_nil]
  have hc : ((0 : Nat) + 1 + 1 > 0 ∧ p > 0 ∧ s > 0 ∧ (m.length : Int) > p + s) ↔
      (p > 0 ∧ s > 0 ∧ (m.length : Int) > p + s) := by
    constructor
    · rintro ⟨-, h⟩; exact h
    · intro h; exact ⟨by omega, h⟩
  rw [if_congr hc rfl rfl]

/-! ## Claim C5 -/

/-- Claim C5 (code bug): in `NormalizeExtendedRegex` the `#` comment
case is supposed to "skip until end of line" (the source's own comment),
but its inner loop has no effect, so only the `#` itself and the
whitespace are dropped while the comment body survives.  Evaluating the
embedded source at the failing input `"(?x)ab #cd\nef"` yields
`"abcdef"` where the claim requires `"abef"`. -/
theorem claim_C5_comment_body_survives :
    NormalizeExtendedRegex "(?x)ab #cd\nef".toList = "abcdef".toList ∧
    NormalizeExtendedRegex "(?x)ab #cd\nef".toList ≠ "abef".toList := by
  decide

/-! ## Claim C6 -/

/-- Claim C6 counterexample: the pattern `"(?x)a\ b"` contains `(?x)`,
contains no character class at all (no `[`), yet the space — which is
therefore outside every character class — survives in the normalizer's
output because it is escaped.  So "Unicode whitespace outside character
classes is removed" fails as stated. -/
theorem claim_C6_counterexample :
    containsXFlag "(?x)a\\ b".toList = true ∧
    '[' ∉ "(?x)a\\ b".toList ∧
    ' ' ∈ NormalizeExtendedRegex "(?x)a\\ b".toList := by
  decide

/-- Claim C6 (amended): the normalizer is the identity on patterns not
containing `(?x)`; on the others, after all `(?x)` tokens are removed,
the walker drops Unicode whitespace outside character classes unless it
is consumed by an escape, appends every character while inside a
character class, and appends every escaped character verbatim; the two
concrete examples of the claim evaluate as stated. -/
theorem claim_C6_normalizer_amended :
    (∀ p : List Char, containsXFlag p = false → NormalizeExtendedRegex p = p) ∧
    (∀ (st : NormSt) (r : Char), st.inEscape = false → st.inCharClass = false →
      isGoSpace r = true → normStep st r = st) ∧
    (∀ (st : NormSt) (r : Char), st.inEscape = false → st.inCharClass = true →
      (normStep st r).acc = st.acc ++ [r]) ∧
    (∀ (st : NormSt) (r : Char), st.inEscape = true →
      normStep st r = { st with acc := st.acc ++ [r], inEscape := false }) ∧
    NormalizeExtendedRegex "(?x)\n  \\b  (sk-ant-api\\d{2})  \\b".toList =
      "\\b(sk-ant-api\\d{2})\\b".toList ∧
    NormalizeExtendedRegex "[ a b ]".toList = "[ a b ]".toList := by
  refine ⟨?_, ?_, ?_, ?_, by decide, by decide⟩
  · intro p hp
    simp [NormalizeExtendedRegex, hp]
  · intro st r h1 h2 h3
    have h4 : r ≠ '\\' := fun hr => by subst hr; exact absurd h3 (by decide)
    have h5 : r ≠ '[' := fun hr => by subst hr; exact absurd h3 (by decide)
    have h6 : r ≠ '#' := fun hr => by subst hr; exact absurd h3 (by decide)
    simp [normStep, h1, h2, h3, h4, h5, h6]
  · intro st r h1 h2
    by_cases hb : r = '\\'
    · subst hb; simp [normStep, h1, h2]
    · by_cases hc : r = ']'
      · subst hc; simp [normStep, h1, h2]
      · simp [normStep, h1, h2, hb, hc]
  · intro st r h1
    simp [normStep, h1]

/-- Claim C6 amended, witness: the amended theorem instantiated at
concrete states and characters. -/
theorem claim_C6_normalizer_amended_witness :
    NormalizeExtendedRegex "abc".toList = "abc".toList ∧
    normStep ⟨false, false, ['a']⟩ ' ' = ⟨false, false, ['a']⟩ ∧
    (normStep ⟨true, false, ['a']⟩ 'q').acc = ['a'] ++ ['q'] ∧
    normStep ⟨false, true, ['a']⟩ 'r' =
      { NormSt.mk false true ['a'] with acc := ['a'] ++ ['r'], inEscape := false } :=
  ⟨claim_C6_normalizer_amended.1 _ (by decide),
   claim_C6_normalizer_amended.2.1 ⟨false, false, ['a']⟩ ' ' rfl rfl (by decide),
   claim_C6_normalizer_amended.2.2.1 ⟨true, false, ['a']⟩ 'q' rfl rfl,
   claim_C6_normalizer_amended.2.2.2.1 ⟨false, true, ['a']⟩ 'r' rfl⟩

/-! ## Claim C8 -/

/-- Claim C8 counterexample: a `.txt` file whose first bytes are all
`200` (`0xC8`, outside `[0x20, 0x7E]`, not tab/LF/CR).  Under the
claim's definition of non-printable, 100% of the probed bytes are
non-printable, so the claim classifies the file as binary; the source's
`isBinaryFile` counts only bytes below `0x20` and classifies it as
text. -/
theorem claim_C8_counterexample :
    isBinaryClaim "x.txt".toList (some (List.replicate 10 200)) = true ∧
    isBinaryFile "x.txt".toList (some (List.replicate 10 200)) = false := by
  decide

/-- Claim C8 (amended): the binary-file heuristic classifies a file as
binary iff its lowercased extension is in the fixed deny-list, or any of
its first up-to-512 bytes is `0x00`, or more than 30% of those bytes are
non-printable, where non-printable means a byte below `0x20` other than
tab, LF, CR (bytes at or above `0x7F` count as printable); unreadable
files are binary. -/
theorem claim_C8_binary_heuristic_amended (path : List Char)
    (content : Option (List Nat)) :
    isBinaryFile path content = isBinaryAmended path content := by
  cases content with
  | none => simp [isBinaryFile, isBinaryAmended]
  | some bytes =>
    cases h1 : binaryExts.contains (asciiLower (goFileExt path)) <;>
    cases h2 : (bytes.take 512).any fun b => b == 0 <;>
    cases h3 : ((bytes.take 512).length == 0) <;>
    simp_all [isBinaryFile, isBinaryAmended]
    have h4 : ((bytes.take 512).any fun b => b == 0) = false := by
      simp only [List.any_eq_false]
      intro x hx
      simpa using h2 x hx
    have h5 : (0 : Nat) ∉ bytes.take 512 := fun hx => h2 0 hx rfl
    have h6 : (512 ⊓ bytes.length != 0) = true := by
      have hp := List.length_pos.mpr h3
      simp only [bne_iff_ne, ne_eq]
      omega
    simp [h4, h5, h6]


/-! ## Claim C7 -/

/-- The claim's first overlap-filter example input: `{0..20, generic.1}`. -/
def mrGen1 : MatchResult := ⟨0, 20, [], [], "", "generic.1", 0, 0, false⟩

/-- The claim's first overlap-filter example input: `{5..15, anthropic.1}`. -/
def mrSpec1 : MatchResult := ⟨5, 15, [], [], "", "anthropic.1", 0, 0, false⟩

/-- The claim's second overlap-filter example input: `{0..10, generic.1}`. -/
def mrGen2 : MatchResult := ⟨0, 10, [], [], "", "generic.1", 0, 0, false⟩

/-- The claim's second overlap-filter example input: `{50..60, anthropic.1}`. -/
def mrSpec2 : MatchResult := ⟨50, 60, [], [], "", "anthropic.1", 0, 0, false⟩

/-- Claim C7 (modelled from the spec, the filter being absent from the
source tree): a generic match that overlaps a non-generic match is
absent from the filter's output, a non-generic match is never removed,
and the two concrete examples of the claim evaluate as stated. -/
theorem claim_C7_generic_overlap_filter :
    (∀ (rs : List MatchResult) (a b : MatchResult), a ∈ rs → b ∈ rs →
      isGenericRule a.RuleID = true → isGenericRule b.RuleID = false →
      overlapsB a b = true → a ∉ filterGenericOverlaps rs) ∧
    (∀ (rs : List MatchResult) (a : MatchResult), a ∈ rs →
      isGenericRule a.RuleID = false → a ∈ filterGenericOverlaps rs) ∧
    filterGenericOverlaps [mrGen1, mrSpec1] = [mrSpec1] ∧
    filterGenericOverlaps [mrGen2, mrSpec2] = [mrGen2, mrSpec2] := by
  refine ⟨?_, ?_, by decide, by decide⟩
  · intro rs a b ha hb hga hgb hov hmem
    rw [filterGenericOverlaps, List.mem_filter] at hmem
    have h2 := hmem.2
    simp only [hga, Bool.true_and, Bool.not_eq_eq_eq_not, Bool.not_true,
      List.any_eq_false] at h2
    have h3 := h2 b hb
    simp [hgb, hov] at h3
  · intro rs a ha hga
    refine List.mem_filter.mpr ⟨ha, ?_⟩
    simp [hga]

/-- Claim C7, witness: the filter theorem instantiated at the claim's
first example. -/
theorem claim_C7_generic_overlap_filter_witness :
    mrGen1 ∉ filterGenericOverlaps [mrGen1, mrSpec1] ∧
    mrSpec1 ∈ filterGenericOverlaps [mrGen1, mrSpec1] :=
  ⟨claim_C7_generic_overlap_filter.1 [mrGen1, mrSpec1] mrGen1 mrSpec1
      (by decide) (by decide) (by decide) (by decide) (by decide),
   claim_C7_generic_overlap_filter.2.1 [mrGen1, mrSpec1] mrSpec1
      (by decide) (by decide)⟩

/-! ## Concrete engine states for counterexamples and witnesses -/

/-- A rule whose pattern is the literal regex `abc` (no redaction pair,
no entropy threshold), as the CLI would create it. -/
def abcRule : RuntimeRule := ⟨"Abc", "test.abc", "abc".toList, [], 0⟩

/-- The compiled form of the regex `abc`, recorded at the one input the
theorems below evaluate: on `"xabcy"`, Go's `FindAllString` returns
`["abc"]`, `FindAllIndex` returns `[[1, 4]]`, and `FindStringSubmatch`
returns `["abc"]` (the full match; the pattern has no capture
groups). -/
def abcRegex : GoRegex :=
  ⟨fun l => if l == "xabcy".toList then ["abc".toList] else [],
   fun c => if c == "xabcy".toList then [(1, 4)] else [],
   fun l => if l == "xabcy".toList then ["abc".toList] else []⟩

/-- A compiled `GoRegexEngine` holding the single rule `abc`. -/
def abcEngine : GoRegexEngine := ⟨[abcRule], [abcRegex]⟩

/-- A rule whose pattern is the regex `\*` (matches a literal `*`). -/
def starRule : RuntimeRule := ⟨"Star", "test.star", "\\*".toList, [], 0⟩

/-- The compiled form of the regex `\*`, recorded at the one input the
theorems below evaluate: on `"x*y"`, `FindAllString` returns `["*"]`. -/
def starRegex : GoRegex :=
  ⟨fun l => if l == "x*y".toList then [['*']] else [],
   fun _ => [], fun _ => []⟩

/-- A compiled `GoRegexEngine` holding the single rule `\*`. -/
def starEngine : GoRegexEngine := ⟨[starRule], [starRegex]⟩

/-! ## Claim C2 -/

/-- Claim C2 counterexample: under the rule `\*` (no redaction pair) the
line `"x*y"` emits a result whose `Match` is the non-empty string `"*"`
and whose `Redacted` is the full mask `"*"` — equal to `Match`, so the
claim's `redacted ≠ match` fails as stated. -/
theorem claim_C2_counterexample :
    goFindAllInLine (fun _ => 0) starEngine "x*y".toList =
      [{ Start := 0, End := 0, Match := ['*'], Redacted := ['*'],
         RuleName := "Star", RuleID := "test.star", Entropy := 0,
         RuleEntropyThreshold := 0, RuleEntropyThresholdMet := true }] ∧
    (['*'] : List Char) ≠ [] := by
  decide

/-- Claim C2 (amended): for every emitted result with a non-empty
`Match`, from either matcher and both find functions, `Redacted`
contains at least one `*`; and `Redacted ≠ Match` whenever the match
itself contains no `*` character. -/
theorem claim_C2_redaction_faithfulness_amended :
    (∀ (H : List Char → ℚ) (e : GoRegexEngine) (line : List Char)
      (r : MatchResult), r ∈ goFindAllInLine H e line → r.Match ≠ [] →
      '*' ∈ r.Redacted ∧ ('*' ∉ r.Match → r.Redacted ≠ r.Match)) ∧
    (∀ (H : List Char → ℚ) (e : GoRegexEngine) (content : List Char)
      (r : MatchResult), r ∈ goFindAllInContent H e content → r.Match ≠ [] →
      '*' ∈ r.Redacted ∧ ('*' ∉ r.Match → r.Redacted ≠ r.Match)) ∧
    (∀ (H : List Char → ℚ) (e : HyperscanEngine) (line : List Char)
      (sc : Option (List (Nat × Nat × Nat))) (r : MatchResult),
      r ∈ hsFindAllInLine H e line sc → r.Match ≠ [] →
      '*' ∈ r.Redacted ∧ ('*' ∉ r.Match → r.Redacted ≠ r.Match)) ∧
    (∀ (H : List Char → ℚ) (e : HyperscanEngine) (content : List Char)
      (sc : Option (List (Nat × Nat × Nat))) (r : MatchResult),
      r ∈ hsFindAllInContent H e content sc → r.Match ≠ [] →
      '*' ∈ r.Redacted ∧ ('*' ∉ r.Match → r.Redacted ≠ r.Match)) := by
  refine ⟨?_, ?_, ?_, ?_⟩
  · intro H e line r hr hne
    simp only [goFindAllInLine, List.mem_flatMap, List.mem_map] at hr
    obtain ⟨rp, -, m, -, rfl⟩ := hr
    exact ⟨redactMatch_star_mem _ _ hne, fun hs => redactMatch_ne _ _ hne hs⟩
  · intro H e content r hr hne
    simp only [goFindAllInContent, List.mem_flatMap, List.mem_map] at hr
    obtain ⟨rp, -, q, -, rfl⟩ := hr
    exact ⟨redactMatch_star_mem _ _ hne, fun hs => redactMatch_ne _ _ hne hs⟩
  · intro H e line sc r hr hne
    cases hdb : e.database with
    | false => simp [hsFindAllInLine, hdb] at hr
    | true =>
      cases sc with
      | none => simp [hsFindAllInLine, hdb] at hr
      | some evs =>
        simp only [hsFindAllInLine, hdb, if_true, List.mem_map] at hr
        obtain ⟨ev, -, rfl⟩ := hr
        exact ⟨redactMatch_star_mem _ _ hne, fun hs => redactMatch_ne _ _ hne hs⟩
  · intro H e content sc r hr hne
    cases hdb : e.database with
    | false => simp [hsFindAllInContent, hdb] at hr
    | true =>
      cases sc with
      | none => simp [hsFindAllInContent, hdb] at hr
      | some evs =>
        simp only [hsFindAllInContent, hdb, if_true, List.mem_map] at hr
        obtain ⟨ev, -, rfl⟩ := hr
        exact ⟨redactMatch_star_mem _ _ hne, fun hs => redactMatch_ne _ _ hne hs⟩

/-- Claim C2 amended, witness: the amended theorem instantiated at the
`abc` engine on the line `"xabcy"`, whose one emitted result has the
non-empty match `"abc"`. -/
theorem claim_C2_redaction_faithfulness_amended_witness :
    '*' ∈ (goLineResult (fun _ => 0) abcRule "abc".toList).Redacted ∧
    ('*' ∉ (goLineResult (fun _ => 0) abcRule "abc".toList).Match →
      (goLineResult (fun _ => 0) abcRule "abc".toList).Redacted ≠
        (goLineResult (fun _ => 0) abcRule "abc".toList).Match) :=
  claim_C2_redaction_faithfulness_amended.1 (fun _ => 0) abcEngine
    "xabcy".toList (goLineResult (fun _ => 0) abcRule "abc".toList)
    (by decide) (by decide)

/-! ## Claim C9 -/

/-- Claim C9 counterexample: the portable matcher's `Close` is
`return nil` — it releases nothing — so `FindAllInLine` called after
`Close` still returns the same non-empty result list, not an empty
one. -/
theorem claim_C9_counterexample :
    goFindAllInLine (fun _ => 0) (goClose abcEngine).1 "xabcy".toList ≠ [] := by
  decide

/-- Claim C9 (amended): both close wrappers leave the engine state
unchanged, so a second close has no further effect and (for the
portable matcher) returns the same `nil` outcome; the portable
matcher's find functions after close return exactly what they returned
before close; the automaton matcher's find functions return an empty
result whenever the library scan reports an error (in particular on a
released database) or no database was compiled. -/
theorem claim_C9_close_amended :
    (∀ e : GoRegexEngine, goClose e = (e, none)) ∧
    (∀ e : GoRegexEngine, goClose (goClose e).1 = goClose e) ∧
    (∀ (H : List Char → ℚ) (e : GoRegexEngine) (line : List Char),
      goFindAllInLine H (goClose e).1 line = goFindAllInLine H e line) ∧
    (∀ (H : List Char → ℚ) (e : GoRegexEngine) (content : List Char),
      goFindAllInContent H (goClose e).1 content =
        goFindAllInContent H e content) ∧
    (∀ (e : HyperscanEngine) (err : Option String), (hsClose e err).1 = e) ∧
    (∀ (H : List Char → ℚ) (e : HyperscanEngine) (line : List Char),
      hsFindAllInLine H e line none = []) ∧
    (∀ (H : List Char → ℚ) (e : HyperscanEngine) (content : List Char),
      hsFindAllInContent H e content none = []) := by
  refine ⟨fun e => rfl, fun e => rfl, fun H e line => rfl, fun H e c => rfl,
    ?_, ?_, ?_⟩
  · intro e err
    unfold hsClose
    split_ifs <;> rfl
  · intro H e line
    unfold hsFindAllInLine
    split_ifs <;> rfl
  · intro H e c
    unfold hsFindAllInContent
    split_ifs <;> rfl


/-! ## Refinement-span lemmas -/

theorem getD_none_some_mem {α : Type} (l : List (Option α)) (n : Nat) (x : α)
    (h : l.getD n none = some x) : some x ∈ l := by
  rw [List.getD_eq_getElem?_getD] at h
  cases hg : l[n]? with
  | none => rw [hg] at h; simp at h
  | some o =>
    rw [hg] at h
    simp only [Option.getD_some] at h
    subst h
    exact List.getElem?_mem hg

theorem quickMatch_some (line : List Char) (r : GoRegex)
    (hcg : (r.findSubmatch line).isEmpty = false) :
    quickMatchWithRegex line (some r) =
      some (strLastIndex line ((r.findSubmatch line).getLastD []),
        strLastIndex line ((r.findSubmatch line).getLastD []) +
          ((r.findSubmatch line).getLastD []).length) := by
  unfold quickMatchWithRegex
  dsimp only
  rw [hcg]
  simp

theorem quickMatch_spec (line : List Char) (re : Option GoRegex)
    (hor : ∀ r, re = some r → ∀ g ∈ r.findSubmatch line, List.IsInfix g line) :
    quickMatchWithRegex line re = none ∨
    ∃ j len : Nat,
      quickMatchWithRegex line re = some ((j : Int), (j : Int) + (len : Int)) ∧
      j + len ≤ line.length := by
  cases re with
  | none => exact Or.inl rfl
  | some r =>
    by_cases hcg : (r.findSubmatch line).isEmpty = true
    · left
      simp [quickMatchWithRegex, hcg]
    · right
      have hcg' : (r.findSubmatch line) ≠ [] := by
        simpa [List.isEmpty_iff] using hcg
      have hlmmem : (r.findSubmatch line).getLastD [] ∈ r.findSubmatch line := by
        cases hfs : r.findSubmatch line with
        | nil => exact absurd hfs hcg'
        | cons c cs => exact getLastD_mem_cons c cs []
      have hinf := hor r rfl _ hlmmem
      obtain ⟨j, hj, hocc, hjle, -⟩ := strLastIndex_spec line _ hinf
      refine ⟨j, ((r.findSubmatch line).getLastD []).length,
        ?_, occursAtB_add_le _ _ _ hocc hjle⟩
      rw [quickMatch_some line r (by simpa using hcg), hj]

theorem hsRefineSpan_bounds (line : List Char) (re : Option GoRegex)
    (fr0 to0 : Nat) (hf : fr0 ≤ to0) (ht : to0 ≤ line.length)
    (hor : ∀ r, re = some r → ∀ g ∈ r.findSubmatch line, List.IsInfix g line) :
    (hsRefineSpan line re fr0 to0).1 ≤ (hsRefineSpan line re fr0 to0).2 ∧
    (hsRefineSpan line re fr0 to0).2 ≤ line.length := by
  rcases quickMatch_spec line re hor with hq | ⟨j, len, hq, hle⟩
  · unfold hsRefineSpan
    rw [hq]
    exact ⟨hf, ht⟩
  · unfold hsRefineSpan
    rw [hq]
    dsimp only
    have h1 : ((j : Int)).toNat = j := Int.toNat_natCast j
    have h2 : ((j : Int) + (len : Int)).toNat = j + len := by
      rw [← Nat.cast_add, Int.toNat_natCast]
    rw [h1, h2]
    omega

/-! ## Claim C1 -/

/-- Claim C1 counterexample: the portable matcher's `FindAllInLine`
hard-codes `Start: 0, End: 0`, so its emitted result for the rule `abc`
on the line `"xabcy"` has `Match = "abc"` while `line[0:0] = ""`: the
span/substring invariant fails as stated. -/
theorem claim_C1_counterexample :
    (goFindAllInLine (fun _ => 0) abcEngine "xabcy".toList).map
      (fun r => (r.Start, r.End, r.Match)) = [(0, 0, "abc".toList)] ∧
    extract "xabcy".toList 0 0 ≠ "abc".toList := by
  decide

/-- Claim C1 (amended): for `find_in_content` of both matchers and the
automaton matcher's `find_in_line`, every emitted result satisfies
`start ≤ end ≤ |unit|` and `Match = unit[start:end]` (given the engine
oracles' contracts: index pairs lie within the buffer, callback events
lie within the line, and submatch texts are substrings of the line);
the portable matcher's `find_in_line` instead always reports
`start = end = 0` while `Match` is the matched substring. -/
theorem claim_C1_spans_amended :
    (∀ (H : List Char → ℚ) (e : GoRegexEngine) (line : List Char)
      (r : MatchResult), r ∈ goFindAllInLine H e line →
      r.Start = 0 ∧ r.End = 0) ∧
    (∀ (H : List Char → ℚ) (e : GoRegexEngine) (content : List Char),
      (∀ p ∈ e.patterns, ∀ q ∈ p.findAllIdx content,
        q.1 ≤ q.2 ∧ q.2 ≤ content.length) →
      ∀ r ∈ goFindAllInContent H e content,
        r.Start ≤ r.End ∧ r.End ≤ content.length ∧
        r.Match = extract content r.Start r.End) ∧
    (∀ (H : List Char → ℚ) (e : HyperscanEngine) (line : List Char)
      (sc : Option (List (Nat × Nat × Nat))),
      (∀ evs, sc = some evs → ∀ ev ∈ evs,
        ev.2.1 ≤ ev.2.2 ∧ ev.2.2 ≤ line.length) →
      (∀ re, some re ∈ e.goRegexPatterns →
        ∀ g ∈ re.findSubmatch line, List.IsInfix g line) →
      ∀ r ∈ hsFindAllInLine H e line sc,
        r.Start ≤ r.End ∧ r.End ≤ line.length ∧
        r.Match = extract line r.Start r.End) ∧
    (∀ (H : List Char → ℚ) (e : HyperscanEngine) (content : List Char)
      (sc : Option (List (Nat × Nat × Nat))),
      (∀ evs, sc = some evs → ∀ ev ∈ evs,
        ev.2.1 ≤ ev.2.2 ∧ ev.2.2 ≤ content.length) →
      ∀ r ∈ hsFindAllInContent H e content sc,
        r.Start ≤ r.End ∧ r.End ≤ content.length ∧
        r.Match = extract content r.Start r.End) := by
  refine ⟨?_, ?_, ?_, ?_⟩
  · intro H e line r hr
    simp only [goFindAllInLine, List.mem_flatMap, List.mem_map] at hr
    obtain ⟨rp, -, m, -, rfl⟩ := hr
    exact ⟨rfl, rfl⟩
  · intro H e content hb r hr
    simp only [goFindAllInContent, List.mem_flatMap, List.mem_map] at hr
    obtain ⟨rp, hrp, q, hq, rfl⟩ := hr
    have hpmem : rp.2 ∈ e.patterns := (List.of_mem_zip hrp).2
    have := hb rp.2 hpmem q hq
    exact ⟨this.1, this.2, rfl⟩
  · intro H e line sc hb hor r hr
    cases hdb : e.database with
    | false => simp [hsFindAllInLine, hdb] at hr
    | true =>
      cases sc with
      | none => simp [hsFindAllInLine, hdb] at hr
      | some evs =>
        simp only [hsFindAllInLine, hdb, if_true, List.mem_map] at hr
        obtain ⟨ev, hev, rfl⟩ := hr
        have hbev := hb evs rfl ev hev
        have hspan := hsRefineSpan_bounds line
          (e.goRegexPatterns.getD ev.1 none) ev.2.1 ev.2.2 hbev.1 hbev.2
          (fun rg hrg => hor rg (getD_none_some_mem _ _ _ hrg))
        exact ⟨hspan.1, hspan.2, rfl⟩
  · intro H e content sc hb r hr
    cases hdb : e.database with
    | false => simp [hsFindAllInContent, hdb] at hr
    | true =>
      cases sc with
      | none => simp [hsFindAllInContent, hdb] at hr
      | some evs =>
        simp only [hsFindAllInContent, hdb, if_true, List.mem_map] at hr
        obtain ⟨ev, hev, rfl⟩ := hr
        have hbev := hb evs rfl ev hev
        exact ⟨hbev.1, hbev.2, rfl⟩

/-- A rule whose pattern is the regex `a` (a pattern with no capture
groups). -/
def aRule : RuntimeRule := ⟨"A", "test.a", "a".toList, [], 0⟩

/-- The compiled form of the regex `a`, recorded at the one input the
theorems below evaluate: on `"xa"`, `FindStringSubmatch` returns
`["a"]` — only the full match, since the pattern has no capture
groups. -/
def aRegexNoGroup : GoRegex :=
  ⟨fun _ => [], fun _ => [],
   fun l => if l == "xa".toList then [['a']] else []⟩

/-- A compiled `HyperscanEngine` holding the single rule `a`, its
refinement regex compiled. -/
def hsEngineA : HyperscanEngine := ⟨true, [aRule], [some aRegexNoGroup]⟩

/-- The compiled form of a regex such as `a(b?)` whose last capture
group can capture the empty string, recorded at the one input the
theorems below evaluate: on `"a"`, `FindStringSubmatch` returns
`["a", ""]`. -/
def emptyGroupRegex : GoRegex :=
  ⟨fun _ => [], fun _ => [],
   fun l => if l == ['a'] then [['a'], []] else []⟩

/-- A compiled `HyperscanEngine` holding a rule whose refinement regex
is `emptyGroupRegex`. -/
def hsEngineEmptyGroup : HyperscanEngine := ⟨true, [aRule], [some emptyGroupRegex]⟩

/-- Result picked out of the portable matcher's content scan for the
Claim C1 witness. -/
def c1ContentRes : MatchResult :=
  (goFindAllInContent (fun _ => 0) abcEngine "xabcy".toList).getD 0 default

/-- Result picked out of the automaton matcher's line scan for the
Claim C1 witness. -/
def c1HsLineRes : MatchResult :=
  (hsFindAllInLine (fun _ => 0) hsEngineA "xa".toList
    (some [(0, 0, 2)])).getD 0 default

/-- Result picked out of the automaton matcher's content scan for the
Claim C1 witness. -/
def c1HsContentRes : MatchResult :=
  (hsFindAllInContent (fun _ => 0) hsEngineA "xa".toList
    (some [(0, 1, 2)])).getD 0 default

/-- Claim C1 amended, witness: the amended theorem instantiated at
concrete engines, lines and emitted results, all hypotheses discharged
by evaluation. -/
theorem claim_C1_spans_amended_witness :
    ((goFindAllInLine (fun _ => 0) abcEngine "xabcy".toList).getD 0
        default).Start = 0 ∧
    (c1ContentRes.Start ≤ c1ContentRes.End ∧
      c1ContentRes.End ≤ "xabcy".toList.length ∧
      c1ContentRes.Match =
        extract "xabcy".toList c1ContentRes.Start c1ContentRes.End) ∧
    (c1HsLineRes.Start ≤ c1HsLineRes.End ∧
      c1HsLineRes.End ≤ "xa".toList.length ∧
      c1HsLineRes.Match =
        extract "xa".toList c1HsLineRes.Start c1HsLineRes.End) ∧
    (c1HsContentRes.Start ≤ c1HsContentRes.End ∧
      c1HsContentRes.End ≤ "xa".toList.length ∧
      c1HsContentRes.Match =
        extract "xa".toList c1HsContentRes.Start c1HsContentRes.End) :=
  ⟨(claim_C1_spans_amended.1 (fun _ => 0) abcEngine "xabcy".toList
      ((goFindAllInLine (fun _ => 0) abcEngine "xabcy".toList).getD 0 default)
      (by decide)).1,
   claim_C1_spans_amended.2.1 (fun _ => 0) abcEngine "xabcy".toList
      (by decide) c1ContentRes (by decide),
   claim_C1_spans_amended.2.2.1 (fun _ => 0) hsEngineA "xa".toList
      (some [(0, 0, 2)])
      (by intro evs heq; cases heq; decide)
      (by
        intro re hre
        simp only [hsEngineA, List.mem_singleton, Option.some.injEq] at hre
        subst hre
        intro g hg
        have hfs : aRegexNoGroup.findSubmatch "xa".toList = [['a']] := by decide
        rw [hfs] at hg
        simp only [List.mem_singleton] at hg
        subst hg
        exact ⟨['x'], [], by decide⟩)
      c1HsLineRes (by decide),
   claim_C1_spans_amended.2.2.2 (fun _ => 0) hsEngineA "xa".toList
      (some [(0, 1, 2)])
      (by intro evs heq; cases heq; decide)
      c1HsContentRes (by decide)⟩

/-! ## Claim C4 -/

/-- Claim C4 counterexample: the refinement regex `a` has no capture
groups, so its submatch list on `"xa"` has exactly one entry (the full
match).  The claim requires the automaton's bounds `(0, 2)` to be kept
unchanged, but the code refines them to `(1, 2)`: the span of the last
occurrence of the full match. -/
theorem claim_C4_counterexample :
    (hsFindAllInLine (fun _ => 0) hsEngineA "xa".toList
        (some [(0, 0, 2)])).map (fun r => (r.Start, r.End)) = [(1, 2)] ∧
    (aRegexNoGroup.findSubmatch "xa".toList).length = 1 ∧
    ((1 : Nat), (2 : Nat)) ≠ ((0 : Nat), (2 : Nat)) := by
  decide

/-- Claim C4 (amended): in the automaton matcher's per-match refinement,
the bounds are kept unchanged iff the rule's portable regex failed to
compile or yields no match; otherwise the LAST ENTRY of the submatch
slice of the first match — the last capture group when the pattern has
groups, the full match text when it has none — is located at its last
occurrence in the line and `(from, to)` is replaced by
`(offset, offset + length)`. -/
theorem claim_C4_refinement_amended :
    (∀ (line sub : List Char), List.IsInfix sub line →
      ∃ j : Nat, strLastIndex line sub = (j : Int) ∧
        extract line j (j + sub.length) = sub ∧
        j + sub.length ≤ line.length ∧
        ∀ k, k ≤ line.length → extract line k (k + sub.length) = sub →
          k ≤ j) ∧
    (∀ (line : List Char) (fr0 to0 : Nat),
      hsRefineSpan line none fr0 to0 = (fr0, to0)) ∧
    (∀ (line : List Char) (r : GoRegex) (fr0 to0 : Nat),
      r.findSubmatch line = [] →
      hsRefineSpan line (some r) fr0 to0 = (fr0, to0)) ∧
    (∀ (line : List Char) (r : GoRegex) (fr0 to0 : Nat) (j : Nat),
      r.findSubmatch line ≠ [] →
      strLastIndex line ((r.findSubmatch line).getLastD []) = (j : Int) →
      hsRefineSpan line (some r) fr0 to0 =
        (j, j + ((r.findSubmatch line).getLastD []).length)) ∧
    (∀ (H : List Char → ℚ) (rules : List RuntimeRule)
      (pats : List (Option GoRegex)) (line : List Char)
      (ev : Nat × Nat × Nat),
      (hsLineResult H rules pats line ev).Start =
        (hsRefineSpan line (pats.getD ev.1 none) ev.2.1 ev.2.2).1 ∧
      (hsLineResult H rules pats line ev).End =
        (hsRefineSpan line (pats.getD ev.1 none) ev.2.1 ev.2.2).2) := by
  refine ⟨?_, fun line fr0 to0 => rfl, ?_, ?_, fun H rules pats line ev => ⟨rfl, rfl⟩⟩
  · intro line sub hinf
    obtain ⟨j, hj, hocc, hjle, hmax⟩ := strLastIndex_spec line sub hinf
    have hocc' := occursAtB_extract _ _ _ hocc
    refine ⟨j, hj, ?_, occursAtB_add_le _ _ _ hocc hjle, ?_⟩
    · unfold extract
      rw [Nat.add_sub_cancel_left]
      exact hocc'
    · intro k hk hke
      apply hmax k hk
      unfold extract at hke
      rw [Nat.add_sub_cancel_left] at hke
      simpa [occursAtB] using hke
  · intro line r fr0 to0 hfs
    unfold hsRefineSpan quickMatchWithRegex
    simp [hfs]
  · intro line r fr0 to0 j hne hj
    unfold hsRefineSpan
    rw [quickMatch_some line r (by simpa using hne), hj]
    dsimp only
    rw [Int.toNat_natCast, ← Nat.cast_add, Int.toNat_natCast]

/-- Claim C4 amended, witness: the amended theorem instantiated at
concrete lines and refinement regexes, all hypotheses discharged by
evaluation. -/
theorem claim_C4_refinement_amended_witness :
    (∃ j : Nat, strLastIndex "xa".toList "a".toList = (j : Int) ∧
      extract "xa".toList j (j + 1) = "a".toList ∧ j + 1 ≤ 2 ∧
      ∀ k, k ≤ 2 → extract "xa".toList k (k + 1) = "a".toList → k ≤ j) ∧
    hsRefineSpan "xa".toList none 3 7 = (3, 7) ∧
    hsRefineSpan "zz".toList (some abcRegex) 3 7 = (3, 7) ∧
    hsRefineSpan "xa".toList (some aRegexNoGroup) 0 2 = (1, 1 + 1) :=
  ⟨claim_C4_refinement_amended.1 "xa".toList "a".toList ⟨['x'], [], by decide⟩,
   claim_C4_refinement_amended.2.1 "xa".toList 3 7,
   claim_C4_refinement_amended.2.2.1 "zz".toList abcRegex 3 7 (by decide),
   claim_C4_refinement_amended.2.2.2.1 "xa".toList aRegexNoGroup 0 2 1
      (by decide) (by decide)⟩

/-! ## Claim C10 -/

/-- Claim C10: when the portable regex matches but the last capture
group does not participate (its captured text is empty),
`strings.LastIndex(line, "")` is `len(line)`, so refinement sets the
span to `[len(line), len(line))` and the emitted result has empty
`Match` and empty `Redacted`. -/
theorem claim_C10_empty_last_group (H : List Char → ℚ)
    (rules : List RuntimeRule) (pats : List (Option GoRegex))
    (line : List Char) (ev : Nat × Nat × Nat) (r : GoRegex)
    (h1 : pats.getD ev.1 none = some r)
    (h2 : r.findSubmatch line ≠ [])
    (h3 : (r.findSubmatch line).getLastD [] = []) :
    (hsLineResult H rules pats line ev).Start = line.length ∧
    (hsLineResult H rules pats line ev).End = line.length ∧
    (hsLineResult H rules pats line ev).Match = [] ∧
    (hsLineResult H rules pats line ev).Redacted = [] := by
  have hspan : hsRefineSpan line (pats.getD ev.1 none) ev.2.1 ev.2.2 =
      (line.length, line.length) := by
    rw [h1]
    unfold hsRefineSpan
    rw [quickMatch_some line r (by simpa using h2), h3]
    dsimp only
    rw [strLastIndex_nil]
    simp
  have hext : extract line line.length line.length = [] := by
    simp [extract]
  refine ⟨?_, ?_, ?_, ?_⟩
  · show (hsRefineSpan line (pats.getD ev.1 none) ev.2.1 ev.2.2).1 = line.length
    rw [hspan]
  · show (hsRefineSpan line (pats.getD ev.1 none) ev.2.1 ev.2.2).2 = line.length
    rw [hspan]
  · show extract line (hsRefineSpan line (pats.getD ev.1 none) ev.2.1 ev.2.2).1
        (hsRefineSpan line (pats.getD ev.1 none) ev.2.1 ev.2.2).2 = []
    rw [hspan]
    exact hext
  · show redactMatch (rules.getD ev.1 default).Redact
        (extract line (hsRefineSpan line (pats.getD ev.1 none) ev.2.1 ev.2.2).1
          (hsRefineSpan line (pats.getD ev.1 none) ev.2.1 ev.2.2).2) = []
    rw [hspan, hext, redactMatch_nil]

/-- Claim C10, witness: a rule whose refinement regex behaves like
`a(b?)` on the line `"a"` — the last capture group captures the empty
string — refines the event `(0, 0, 1)` to the span `[1, 1)` with empty
match and empty redaction. -/
theorem claim_C10_empty_last_group_witness :
    (hsLineResult (fun _ => 0) [aRule] [some emptyGroupRegex] ['a']
      (0, 0, 1)).Start = (['a'] : List Char).length ∧
    (hsLineResult (fun _ => 0) [aRule] [some emptyGroupRegex] ['a']
      (0, 0, 1)).End = (['a'] : List Char).length ∧
    (hsLineResult (fun _ => 0) [aRule] [some emptyGroupRegex] ['a']
      (0, 0, 1)).Match = [] ∧
    (hsLineResult (fun _ => 0) [aRule] [some emptyGroupRegex] ['a']
      (0, 0, 1)).Redacted = [] :=
  claim_C10_empty_last_group (fun _ => 0) [aRule] [some emptyGroupRegex]
    ['a'] (0, 0, 1) emptyGroupRegex rfl (by decide) (by decide)

end Poltergeist
